import Mathlib

/-!
# Dekart server: report mutations and the report stream

A shallow embedding of `src/server/dekart/dekart.go` and
`src/server/dekart/report.go`.

* The relational store is a pair of row lists (`reports`, `queries`); every SQL
  statement of the source is one function on that pair.
* A handler is a function from the stored state, the request, the caller's
  context and the outcomes of its external calls (storage faults, generated
  identifiers) to its result, the stored state it leaves behind and the trace
  of externally visible events it performed, in program order.
* Time in the stream handler is a logical clock counted in milliseconds.
-/

namespace Dekart

/-! ## Storage -/

/-- Row of table `reports`. Columns that the source may leave unset are optional. -/
structure ReportRow where
  id : String
  author_email : Option String
  map_config : Option String
  title : Option String
  archived : Bool
deriving DecidableEq, Repr

/-- Row of table `queries`. -/
structure QueryRow where
  id : String
  report_id : String
  query_text : String
deriving DecidableEq, Repr

/-- Stored state: the two tables. -/
structure DB where
  reports : List ReportRow
  queries : List QueryRow
deriving DecidableEq, Repr

/-- Status of a call that did not succeed. `Unknown` is an error returned without a
status wrapper, `Fatal` is `log.Fatal` (process exit) and `Panic` a nil dereference. -/
inductive Code where
  | InvalidArgument
  | Unauthenticated
  | NotFound
  | Internal
  | Unknown
  | Fatal
  | Panic
deriving DecidableEq, Repr

/-- Message `proto.Report`; the defaults are Go's zero values. -/
structure Report where
  Id : String := ""
  MapConfig : String := ""
  Title : String := ""
  CanWrite : Bool := false
deriving DecidableEq, Repr

/-- Message `proto.Query`. -/
structure Query where
  Id : String := ""
  ReportId : String := ""
  QueryText : String := ""
deriving DecidableEq, Repr

/-- Message `proto.ReportStreamResponse`. -/
structure ReportStreamResponse where
  Report : Report
  Queries : List Query
deriving DecidableEq, Repr

/-- Cause reported by a context whose `Done` channel is closed. -/
inductive DoneCause where
  | deadline
  | cancelled
deriving DecidableEq, Repr

/-- Externally visible steps of a handler. -/
inductive Event where
  /-- `BeginTx` returned a transaction. -/
  | beginTx
  /-- A statement run directly on the database succeeded and is durable. -/
  | write
  /-- A statement run inside the open transaction succeeded. -/
  | txWrite
  /-- `tx.Commit` succeeded. -/
  | commit
  /-- `tx.Rollback` was called. -/
  | rollback
  /-- `Streams.Ping reportID`. -/
  | ping (reportID : String)
  /-- `Streams.Regter reportID streamID`. -/
  | register (reportID streamID : String)
  /-- `Streams.Deregister reportID streamID`. -/
  | deregister (reportID streamID : String)
  /-- First storage read of `sendReportMessage reportID`. -/
  | read (reportID : String)
  /-- `srv.Send` delivered a message. -/
  | send (msg : ReportStreamResponse)
  /-- The `select` took the `<-ping` case at time `t`. -/
  | wake (t : Nat)
  /-- The `select` took the `<-ctx.Done()` case at time `t`. -/
  | ctxDone (t : Nat) (cause : DoneCause)
  /-- The deferred `cancel()` of the timeout context. -/
  | cancelTimeout
deriving DecidableEq, Repr

/-- Result of a handler: what it returned, the stored state afterwards, its events. -/
structure Outcome (α : Type) where
  result : Except Code α
  db : DB
  trace : List Event

/-- Whether a call returned without error. -/
def Outcome.ok {α : Type} (o : Outcome α) : Bool :=
  match o.result with
  | .ok _ => true
  | .error _ => false

/-- Unexpected failures of the external calls of one handler execution. `exec k` is the
`k`-th `ExecContext` call of the execution (from 0), `query k` the `k`-th
`QueryContext` call, `scan k` the `k`-th `Scan` call site. -/
structure Faults where
  beginTx : Bool := false
  exec : Nat → Bool := fun _ => false
  rowsAffected : Bool := false
  query : Nat → Bool := fun _ => false
  scan : Nat → Bool := fun _ => false
  commit : Bool := false
  send : Bool := false

/-- No unexpected failure. -/
def noFaults : Faults := {}

/-- Modelled from the spec: `user.Claims` of package `dekart/src/server/user` is not
among the sources; the handlers read only `Email`. -/
structure Claims where
  Email : String
deriving DecidableEq, Repr

/-- Request context, reduced to what the handlers read from it. -/
structure Context where
  claims : Option Claims
deriving DecidableEq, Repr

/-- Modelled from the spec: `user.GetClaims` is not among the sources; the identity
collaborator "resolves an authenticated caller's identity from the request context"
and "returns an absent-identity signal when no valid session exists". -/
def GetClaims (ctx : Context) : Option Claims := ctx.claims

/-- Modelled from the spec: the package value `Unauthenticated` is not among the
sources; it is the error of a call with no caller identity. -/
def Unauthenticated : Code := Code.Unauthenticated

/-! ### SQL statements -/

/-- Where-clause `id=$3 and author_email=$4`. A null `author_email` matches nobody. -/
def ownedBy (id email : String) (r : ReportRow) : Bool :=
  r.id == id && r.author_email == some email

/-- Statement `update reports set map_config=$1, title=$2 where id=$3 and author_email=$4`;
returns the new state and the number of rows matched. -/
def DB.updateReport (db : DB) (mapConfig title id email : String) : DB × Nat :=
  ({ db with reports := db.reports.map fun r =>
      if ownedBy id email r then { r with map_config := some mapConfig, title := some title }
      else r },
   (db.reports.filter (ownedBy id email)).length)

/-- Statement `update queries set query_text=$1 where id=$2`. -/
def DB.updateQueryText (db : DB) (queryText id : String) : DB × Nat :=
  ({ db with queries := db.queries.map fun q =>
      if q.id == id then { q with query_text := queryText } else q },
   (db.queries.filter fun q => q.id == id).length)

/-- Statement `update reports set archived=$1 where id=$2 and author_email=$3`. -/
def DB.updateArchived (db : DB) (archive : Bool) (id email : String) : DB × Nat :=
  ({ db with reports := db.reports.map fun r =>
      if ownedBy id email r then { r with archived := archive } else r },
   (db.reports.filter (ownedBy id email)).length)

/-- An open transaction: the durable state it started from and its working copy. -/
structure Tx where
  base : DB
  work : DB

/-- `BeginTx`. -/
def DB.begin (db : DB) : Tx := ⟨db, db⟩

/-- `tx.Rollback`: the working copy is dropped. -/
def Tx.rollback (tx : Tx) : DB := tx.base

/-- `tx.Commit`: the working copy becomes durable, unless the commit fails. -/
def Tx.commit (tx : Tx) (fails : Bool) : DB := if fails then tx.base else tx.work

/-! ## report.go -/

/-- Request `proto.UpdateReportRequest`. -/
structure UpdateReportRequest where
  Report : Option Report
  Query : List Query
deriving DecidableEq, Repr

/-- Loop `for _, query := range req.Query` of `UpdateReport`, from the `k`-th
`ExecContext` call on: the transaction and the events after the loop (`ok`), or at
the statement that failed (`error`). -/
def saveQueries (f : Faults) : Nat → List Query → Tx → List Event → Except (Tx × List Event) (Tx × List Event)
  | _, [], tx, ev => .ok (tx, ev)
  | k, query :: rest, tx, ev =>
    if f.exec k then .error (tx, ev)
    else saveQueries f (k + 1) rest
      { tx with work := (tx.work.updateQueryText query.QueryText query.Id).1 } (ev ++ [Event.txWrite])

/-- Handler `UpdateReport` (report.go:171). -/
def UpdateReport (f : Faults) (db : DB) (ctx : Context) (req : UpdateReportRequest) : Outcome Unit :=
  match GetClaims ctx with
  | none => ⟨.error Unauthenticated, db, []⟩
  | some claims =>
  match req.Report with
  | none => ⟨.error .InvalidArgument, db, []⟩
  | some report =>
  if f.beginTx then ⟨.error .Internal, db, []⟩ else
  let tx := db.begin
  if f.exec 0 then ⟨.error .Internal, tx.rollback, [.beginTx, .rollback]⟩ else
  let upd := tx.work.updateReport report.MapConfig report.Title report.Id claims.Email
  let tx : Tx := { tx with work := upd.1 }
  let affectedRows := upd.2
  if f.rowsAffected then ⟨.error .Internal, tx.rollback, [.beginTx, .txWrite, .rollback]⟩ else
  if affectedRows == 0 then ⟨.error .NotFound, tx.rollback, [.beginTx, .txWrite, .rollback]⟩ else
  match saveQueries f 1 req.Query tx [.beginTx, .txWrite] with
  | .error (tx, ev) => ⟨.error .Internal, tx.rollback, ev ++ [.rollback]⟩
  | .ok (tx, ev) =>
    if f.commit then ⟨.error .Internal, tx.commit true, ev⟩
    else ⟨.ok (), tx.commit false, ev ++ [.commit, .ping report.Id]⟩

/-- Request `proto.ArchiveReportRequest`. -/
structure ArchiveReportRequest where
  ReportId : String
  Archive : Bool
deriving DecidableEq, Repr

/-- Handler `ArchiveReport` (report.go:252). `uuidParse` is the verdict of the library
function `uuid.Parse` (true when it returns no error). The update runs directly on
the database, so it is durable as soon as `ExecContext` returns. -/
def ArchiveReport (uuidParse : String → Bool) (f : Faults) (db : DB) (ctx : Context)
    (req : ArchiveReportRequest) : Outcome Unit :=
  match GetClaims ctx with
  | none => ⟨.error Unauthenticated, db, []⟩
  | some claims =>
  if !uuidParse req.ReportId then ⟨.error .InvalidArgument, db, []⟩ else
  if f.exec 0 then ⟨.error .Internal, db, []⟩ else
  let upd := db.updateArchived req.Archive req.ReportId claims.Email
  let affectedRows := upd.2
  if f.rowsAffected then ⟨.error .Internal, upd.1, [.write]⟩ else
  if affectedRows == 0 then ⟨.error .NotFound, upd.1, [.write]⟩ else
  ⟨.ok (), upd.1, [.write, .ping req.ReportId]⟩

/-- Modelled from the spec: the table definitions are not among the sources. Section 6
gives `reports(identifier primary key, ...)`; the `archived` flag of a row inserted
without it is false, since `getReport` reads with `not archived`. Statement
`INSERT INTO reports (id, author_email, map_config, title)`; `none` when it fails. -/
def DB.insertReport (db : DB) (row : ReportRow) (fails : Bool) : Option DB :=
  if fails || db.reports.any (fun r => r.id == row.id) then none
  else some { db with reports := db.reports ++ [row] }

/-- Modelled from the spec: section 6 gives `queries(identifier primary key, report
identifier foreign key, query text)`. Statement
`INSERT INTO queries (id, report_id, query_text)`; `none` when it fails. -/
def DB.insertQuery (db : DB) (row : QueryRow) (fails : Bool) : Option DB :=
  if fails || db.queries.any (fun q => q.id == row.id)
      || !db.reports.any (fun r => r.id == row.report_id) then none
  else some { db with queries := db.queries ++ [row] }

/-- Function `newUUID` (report.go:16): the `k`-th random identifier of the execution,
or `log.Fatal` when the generator fails. -/
def newUUID (rand : Nat → Option String) (k : Nat) : Except Code String :=
  match rand k with
  | none => .error .Fatal
  | some u => .ok u

/-- Column list of `getReport`'s select for one row: null `map_config` reads as the
empty string, null `title` as `Untitled`; a null `author_email` makes `can_write`
null, which `Scan` cannot store in a `bool`. -/
def scanReport (email : String) (r : ReportRow) : Option Report :=
  match r.author_email with
  | none => none
  | some a => some
      { Id := r.id, MapConfig := r.map_config.getD "", Title := r.title.getD "Untitled",
        CanWrite := a == email }

/-- Loop `for reportRows.Next()` of `getReport`: each row is scanned into the same
`report`. -/
def scanReports (email : String) (scanFails : Bool) : List ReportRow → Report → Except Code Report
  | [], report => .ok report
  | r :: rest, _ =>
    if scanFails then .error .Unknown else
    match scanReport email r with
    | none => .error .Unknown
    | some report => scanReports email scanFails rest report

/-- Method `getReport` (report.go:24): `.ok none` is "not found". -/
def getReport (queryFails scanFails : Bool) (db : DB) (ctx : Context) (reportID : String) :
    Except Code (Option Report) :=
  match GetClaims ctx with
  | none => .error .Fatal
  | some claims =>
  if queryFails then .error .Unknown else
  let reportRows := (db.reports.filter fun r => r.id == reportID && !r.archived).take 1
  match scanReports claims.Email scanFails reportRows {} with
  | .error e => .error e
  | .ok report => if report.Id == "" then .ok none else .ok (some report)

/-- Modelled from the spec: method `getQueries` is not among the sources. Fork report
reads "the source report ... and all its queries": every stored query whose report
identifier is `reportID`, in stored order. -/
def getQueries (queryFails : Bool) (db : DB) (reportID : String) : Except Code (List Query) :=
  if queryFails then .error .Unknown
  else .ok ((db.queries.filter fun q => q.report_id == reportID).map fun q =>
    { Id := q.id, ReportId := q.report_id, QueryText := q.query_text })

/-- Loop `for _, query := range queries` of `commitReportWithQueries`, from the `k`-th
`newUUID` and `ExecContext` call on. A failed insert calls `rollback` and returns the
error; a failed `newUUID` ends the process before any rollback or commit. -/
def insertQueries (f : Faults) (rand : Nat → Option String) (reportId : String) :
    Nat → List Query → Tx → List Event → Except (Code × Tx × List Event) (Tx × List Event)
  | _, [], tx, ev => .ok (tx, ev)
  | k, query :: rest, tx, ev =>
    match newUUID rand k with
    | .error e => .error (e, tx, ev)
    | .ok queryId =>
      match tx.work.insertQuery ⟨queryId, reportId, query.QueryText⟩ (f.exec k) with
      | none => .error (.Unknown, tx, ev ++ [Event.rollback])
      | some w => insertQueries f rand reportId (k + 1) rest { tx with work := w }
          (ev ++ [Event.txWrite])

/-- Method `commitReportWithQueries` (report.go:95). The error of `BeginTx` is
overwritten unread, so after a failed `BeginTx` the first `tx.ExecContext` runs on a
nil transaction. `BeginTx` is called before `claims.Email` is read, so with nil claims
the dereference fails inside an open transaction, which is never committed. Errors are
returned without a status wrapper. -/
def commitReportWithQueries (f : Faults) (rand : Nat → Option String) (db : DB) (ctx : Context)
    (report : Report) (queries : List Query) : Outcome Unit :=
  if f.beginTx then ⟨.error .Panic, db, []⟩ else
  let tx := db.begin
  match GetClaims ctx with
  | none => ⟨.error .Panic, tx.base, [.beginTx]⟩
  | some claims =>
  match tx.work.insertReport
      ⟨report.Id, some claims.Email, some report.MapConfig, some report.Title, false⟩ (f.exec 0) with
  | none => ⟨.error .Unknown, tx.rollback, [.beginTx, .rollback]⟩
  | some w =>
    match insertQueries f rand report.Id 1 queries { tx with work := w } [.beginTx, .txWrite] with
    | .error (e, tx, ev) => ⟨.error e, tx.rollback, ev⟩
    | .ok (tx, ev) =>
      if f.commit then ⟨.error .Unknown, tx.commit true, ev⟩
      else ⟨.ok (), tx.commit false, ev ++ [.commit]⟩

/-- Request `proto.ForkReportRequest`. -/
structure ForkReportRequest where
  ReportId : String
deriving DecidableEq, Repr

/-- Response `proto.ForkReportResponse`. -/
structure ForkReportResponse where
  ReportId : String
deriving DecidableEq, Repr

/-- Handler `ForkReport` (report.go:127). `rand 0` is the new report identifier,
`rand 1, rand 2, ...` the new query identifiers. -/
def ForkReport (uuidParse : String → Bool) (rand : Nat → Option String) (f : Faults) (db : DB)
    (ctx : Context) (req : ForkReportRequest) : Outcome ForkReportResponse :=
  match GetClaims ctx with
  | none => ⟨.error Unauthenticated, db, []⟩
  | some _ =>
  if !uuidParse req.ReportId then ⟨.error .InvalidArgument, db, []⟩ else
  match newUUID rand 0 with
  | .error e => ⟨.error e, db, []⟩
  | .ok reportID =>
  match getReport (f.query 0) (f.scan 0) db ctx req.ReportId with
  | .error e => ⟨.error e, db, []⟩
  | .ok none => ⟨.error .NotFound, db, []⟩
  | .ok (some report) =>
  let report := { report with Id := reportID, Title := "Fork of " ++ report.Title }
  match getQueries (f.query 1) db req.ReportId with
  | .error e => ⟨.error e, db, []⟩
  | .ok sourceQueries =>
  let c := commitReportWithQueries f rand db ctx report sourceQueries
  match c.result with
  | .error e => ⟨.error e, c.db, c.trace⟩
  | .ok _ => ⟨.ok ⟨reportID⟩, c.db, c.trace⟩

/-- Response `proto.CreateReportResponse`. -/
structure CreateReportResponse where
  Report : Report
deriving DecidableEq, Repr

/-- Handler `CreateReport` of report.go (line 65). -/
def CreateReport (rand : Nat → Option String) (f : Faults) (db : DB) (ctx : Context) :
    Outcome CreateReportResponse :=
  match GetClaims ctx with
  | none => ⟨.error Unauthenticated, db, []⟩
  | some claims =>
  match newUUID rand 0 with
  | .error e => ⟨.error e, db, []⟩
  | .ok id =>
  match db.insertReport ⟨id, some claims.Email, none, none, false⟩ (f.exec 0) with
  | none => ⟨.error .Unknown, db, []⟩
  | some db1 => ⟨.ok ⟨{ Id := id }⟩, db1, [.write]⟩

/-! ## dekart.go -/

/-- Handler `CreateReport` of dekart.go (line 25): no identity is read and the row
carries only its identifier. -/
def DekartGo.CreateReport (rand : Nat → Option String) (f : Faults) (db : DB) (_ctx : Context) :
    Outcome CreateReportResponse :=
  match rand 0 with
  | none => ⟨.error .Unknown, db, []⟩
  | some u =>
  match db.insertReport ⟨u, none, none, none, false⟩ (f.exec 0) with
  | none => ⟨.error .Unknown, db, []⟩
  | some db1 => ⟨.ok ⟨{ Id := u }⟩, db1, [.write]⟩

/-- Request `proto.CreateQueryRequest`. -/
structure CreateQueryRequest where
  Query : Option Query
deriving DecidableEq, Repr

/-- Handler `CreateQuery` (dekart.go:48); the response is the created query. -/
def CreateQuery (rand : Nat → Option String) (f : Faults) (db : DB) (_ctx : Context)
    (req : CreateQueryRequest) : Outcome Query :=
  match req.Query with
  | none => ⟨.error .InvalidArgument, db, []⟩
  | some query =>
  match rand 0 with
  | none => ⟨.error .Internal, db, []⟩
  | some u =>
  match db.insertQuery ⟨u, query.ReportId, query.QueryText⟩ (f.exec 0) with
  | none => ⟨.error .InvalidArgument, db, []⟩
  | some db1 =>
    ⟨.ok { Id := u, ReportId := query.ReportId, QueryText := query.QueryText }, db1,
      [.write, .ping query.ReportId]⟩

/-- Loop `for rows.Next()` with `rows.Scan(&v)` over a one-column result: the variable
keeps the last value scanned. -/
def scanLast (scanFails : Bool) : List String → String → Except Code String
  | [], v => .ok v
  | x :: rest, _ => if scanFails then .error .Internal else scanLast scanFails rest x

/-- Request `proto.UpdateQueryRequest`. -/
structure UpdateQueryRequest where
  Query : Option Query
deriving DecidableEq, Repr

/-- Handler `UpdateQuery` (dekart.go:82); the response is a query carrying only the
identifier. The update runs directly on the database. -/
def UpdateQuery (f : Faults) (db : DB) (_ctx : Context) (req : UpdateQueryRequest) :
    Outcome Query :=
  match req.Query with
  | none => ⟨.error .InvalidArgument, db, []⟩
  | some query =>
  if f.exec 0 then ⟨.error .Internal, db, []⟩ else
  let upd := db.updateQueryText query.QueryText query.Id
  let affectedRows := upd.2
  if f.rowsAffected then ⟨.error .Internal, upd.1, [.write]⟩ else
  if affectedRows == 0 then ⟨.error .NotFound, upd.1, [.write]⟩ else
  if f.query 0 then ⟨.error .Internal, upd.1, [.write]⟩ else
  let queryRows := ((upd.1.queries.filter fun q => q.id == query.Id).take 1).map (·.report_id)
  match scanLast (f.scan 0) queryRows "" with
  | .error e => ⟨.error e, upd.1, [.write]⟩
  | .ok reportID => ⟨.ok { Id := query.Id }, upd.1, [.write, .ping reportID]⟩

/-- Loop `for queryRows.Next()` of `sendReportMessage`. -/
def scanQueries (scanFails : Bool) (reportId : String) : List QueryRow → List Query → Except Code (List Query)
  | [], acc => .ok acc
  | q :: rest, acc =>
    if scanFails then .error .Internal
    else scanQueries scanFails reportId rest
      (acc ++ [{ Id := q.id, ReportId := reportId, QueryText := q.query_text }])

/-- Method `sendReportMessage` (dekart.go:137): its error, if any, and its events. -/
def sendReportMessage (f : Faults) (db : DB) (reportID : String) :
    Except Code Unit × List Event :=
  if f.query 0 then (.error .Internal, [.read reportID]) else
  let reportRows := ((db.reports.filter fun r => r.id == reportID).take 1).map (·.id)
  match scanLast (f.scan 0) reportRows "" with
  | .error e => (.error e, [.read reportID])
  | .ok id =>
  if id == "" then (.error .NotFound, [.read reportID]) else
  if f.query 1 then (.error .Internal, [.read reportID]) else
  match scanQueries (f.scan 1) id (db.queries.filter fun q => q.report_id == id) [] with
  | .error e => (.error e, [.read reportID])
  | .ok queries =>
    if f.send then (.error .Unknown, [.read reportID])
    else (.ok (), [.read reportID, .send ⟨{ Id := id }, queries⟩])

/-- Request `proto.ReportStreamRequest`. -/
structure ReportStreamRequest where
  Report : Option Report
deriving DecidableEq, Repr

/-- One wake-up offered to the `select` of `GetReportStream`: the time it becomes
receivable on the `ping` channel, which case `select` takes when `ping` and
`ctx.Done()` are receivable at the same instant, and the stored state, the faults and
the duration of the re-send it triggers. -/
structure Tick where
  arrival : Nat
  wins : Bool
  db : DB
  faults : Faults
  dur : Nat

/-- What one streaming session meets: the time of the call, the stored state, the
faults and the duration of the initial snapshot, the time the caller cancels (if
ever), and the wake-ups offered to it. -/
structure StreamEnv where
  start : Nat
  db0 : DB
  f0 : Faults
  dur0 : Nat
  cancelAt : Option Nat
  ticks : List Tick

/-- Milliseconds in `time.Second`. -/
def second : Nat := 1000

/-- When and why `ctx.Done()` of `context.WithTimeout(srv.Context(), ...)` closes: at
the deadline, or when the parent context is cancelled before it. -/
def doneAt (deadline : Nat) (cancelAt : Option Nat) : Nat × DoneCause :=
  match cancelAt with
  | none => (deadline, .deadline)
  | some c => if c < deadline then (c, .cancelled) else (deadline, .deadline)

/-- Loop `for` around the `select` of `GetReportStream`, entered at time `now`
with the context `ctx` closing at `done.1`. With no wake-up left only
`ctx.Done()` can fire. -/
def waitLoop (reportID : String) (done : Nat × DoneCause) :
    Nat → List Tick → Except Code Unit × List Event
  | now, [] => (.ok (), [.ctxDone (max now done.1) done.2])
  | now, p :: rest =>
    let tp := max now p.arrival
    let td := max now done.1
    if tp < td || (tp == td && p.wins) then
      let s := sendReportMessage p.faults p.db reportID
      match s.1 with
      | .error e => (.error e, .wake tp :: s.2)
      | .ok _ =>
        let r := waitLoop reportID done (tp + p.dur) rest
        (r.1, .wake tp :: s.2 ++ r.2)
    else (.ok (), [.ctxDone td done.2])

/-- Body of `GetReportStream` after `defer s.ReportStreams.Deregister(...)`, with the
deferred `cancel()` run on the paths that created the timeout context. -/
def streamBody (env : StreamEnv) (reportID : String) : Except Code Unit × List Event :=
  let s := sendReportMessage env.f0 env.db0 reportID
  match s.1 with
  | .error e => (.error e, s.2)
  | .ok _ =>
    let t0 := env.start + env.dur0
    let r := waitLoop reportID (doneAt (t0 + 10 * second) env.cancelAt) t0 env.ticks
    (r.1, s.2 ++ r.2 ++ [.cancelTimeout])

/-- Handler `GetReportStream` (dekart.go:196). `streamID` is the result of
`uuid.NewRandom`. The deferred `Deregister` runs last on every return. -/
def GetReportStream (streamID : Option String) (env : StreamEnv) (req : ReportStreamRequest) :
    Except Code Unit × List Event :=
  match req.Report with
  | none => (.error .InvalidArgument, [])
  | some report =>
  match streamID with
  | none => (.error .Internal, [])
  | some sid =>
    let body := streamBody env report.Id
    (body.1, .register report.Id sid :: body.2 ++ [.deregister report.Id sid])

/-! ## Properties of traces -/

/-- Report identifiers published by a trace, in order. -/
def pings (tr : List Event) : List String :=
  tr.filterMap fun e => match e with
    | .ping r => some r
    | _ => none

/-- Events after which a change is durable: a direct write or a commit. -/
def isDurable : Event → Bool
  | .write => true
  | .commit => true
  | _ => false

/-- Every publish of the trace comes after a durable write or commit of the trace. -/
def PingAfterDurable (tr : List Event) : Prop :=
  ∀ pre r post, tr = pre ++ Event.ping r :: post → ∃ e ∈ pre, isDurable e = true

/-- Publish discipline of one call: success exactly when one publish was issued, never
more than one publish, and every publish after the durable write or commit. -/
def PublishDiscipline {α : Type} (o : Outcome α) : Prop :=
  (o.ok = true ↔ (pings o.trace).length = 1) ∧ (pings o.trace).length ≤ 1 ∧
    PingAfterDurable o.trace

/-- Calls into the hub's registry: registration and deregistration. -/
def isHub : Event → Bool
  | .register _ _ => true
  | .deregister _ _ => true
  | _ => false

/-! ## Sample data -/

/-- Hexadecimal digit. -/
def isHexDigit (c : Char) : Bool :=
  c.isDigit || (decide ('a' ≤ c) && decide (c ≤ 'f')) || (decide ('A' ≤ c) && decide (c ≤ 'F'))

/-- The 36-character form `xxxxxxxx-xxxx-xxxx-xxxx-xxxxxxxxxxxx`, one of the forms
`uuid.Parse` accepts; a sample value for the parameter `uuidParse`. -/
def canonicalUUID (s : String) : Bool :=
  s.length == 36 && s.data.enum.all fun p =>
    if p.1 == 8 || p.1 == 13 || p.1 == 18 || p.1 == 23 then p.2 == '-' else isHexDigit p.2

/-- Identifier of the sample report. -/
def idX : String := "11111111-1111-4111-8111-111111111111"

/-- A store with one report, owned by `ann@example.org`, titled `T`, with one query
`SELECT 1`. -/
def sampleDB : DB :=
  { reports := [⟨idX, some "ann@example.org", some "M", some "T", false⟩],
    queries := [⟨"q1", idX, "SELECT 1"⟩] }

/-- Context of the owner of the sample report. -/
def annCtx : Context := ⟨some ⟨"ann@example.org"⟩⟩

/-- Context of another authenticated caller. -/
def bobCtx : Context := ⟨some ⟨"bob@example.org"⟩⟩

/-- Context with no caller identity. -/
def anonCtx : Context := ⟨none⟩

/-- Identifier generated for the fork of the sample report. -/
def idY : String := "22222222-2222-4222-8222-222222222222"

/-- A generator that yields `idY`, then `q2`, then fails. -/
def sampleRand : Nat → Option String
  | 0 => some idY
  | 1 => some "q2"
  | _ => none

/-- A session on the sample store, started at time 0 and never cancelled, whose only
wake-up arrives 9 seconds after the wait loop was entered. -/
def lateTickEnv : StreamEnv :=
  { start := 0, db0 := sampleDB, f0 := noFaults, dur0 := 0, cancelAt := none,
    ticks := [{ arrival := 9000, wins := false, db := sampleDB, faults := noFaults, dur := 0 }] }

/-- A session on the store `db`, started at time 0, never cancelled, never woken. -/
def quietEnv (db : DB) : StreamEnv :=
  { start := 0, db0 := db, f0 := noFaults, dur0 := 0, cancelAt := none, ticks := [] }

/-- The reading "the idle deadline is re-armed on every loop iteration": a session that
consumed a wake-up at time `t` does not end by deadline before `t` plus 10 seconds. -/
def DeadlineRearmed (tr : List Event) : Prop :=
  ∀ t e, Event.wake t ∈ tr → Event.ctxDone e DoneCause.deadline ∈ tr → t + 10 * second ≤ e

/-! ## Theorems -/

/-- The loop over the bundled query edits never changes the state the transaction
started from. -/
theorem saveQueries_base (f : Faults) (qs : List Query) :
    ∀ (k : Nat) (tx : Tx) (ev : List Event),
      (∀ r, saveQueries f k qs tx ev = .ok r → r.1.base = tx.base) ∧
      (∀ r, saveQueries f k qs tx ev = .error r → r.1.base = tx.base) := by
  induction qs with
  | nil =>
    intro k tx ev
    constructor <;> intro r h <;> simp [saveQueries] at h
    subst h; rfl
  | cons q rest ih =>
    intro k tx ev
    by_cases hk : f.exec k = true
    · constructor <;> intro r h <;> simp [saveQueries, hk] at h
      subst h; rfl
    · have := ih (k + 1) { tx with work := (tx.work.updateQueryText q.QueryText q.Id).1 }
        (ev ++ [Event.txWrite])
      constructor <;> intro r h <;> simp [saveQueries, hk] at h
      · exact this.1 r h
      · exact this.2 r h

/-- C1: a call of UpdateReport that returns an error (unauthenticated, missing report,
begin failure, failure of the report update, of the row count, of any bundled query
update, or of the commit) leaves the stored reports and queries exactly as they were;
and when the report update matches no row (report absent or not owned by the caller)
and nothing else fails, the call returns not-found and no query text is changed. -/
theorem UpdateReport_all_or_nothing (f : Faults) (db : DB) (ctx : Context)
    (req : UpdateReportRequest) :
    ((UpdateReport f db ctx req).ok = false → (UpdateReport f db ctx req).db = db) ∧
    (∀ claims report, ctx.claims = some claims → req.Report = some report →
      (∀ r ∈ db.reports, ownedBy report.Id claims.Email r = false) →
      (UpdateReport noFaults db ctx req).result = .error .NotFound ∧
      (UpdateReport noFaults db ctx req).db = db ∧
      (UpdateReport noFaults db ctx req).trace = [.beginTx, .txWrite, .rollback]) := by
  constructor
  · unfold UpdateReport
    cases hc : GetClaims ctx with
    | none => simp
    | some claims =>
      cases hr : req.Report with
      | none => simp
      | some report =>
        simp only []
        split_ifs with h1 h2 h3 h4 h5
        · simp
        · simp [Tx.rollback, DB.begin]
        · simp [Tx.rollback, DB.begin]
        · simp [Tx.rollback, DB.begin]
        · split
          · rename_i tx ev heq
            intro _
            have := (saveQueries_base f req.Query 1 _ _).2 _ heq
            simpa [Tx.rollback, DB.begin] using this
          · rename_i tx ev heq
            intro _
            have := (saveQueries_base f req.Query 1 _ _).1 _ heq
            simpa [Tx.commit, DB.begin] using this
        · split
          · rename_i tx ev heq
            intro _
            have := (saveQueries_base f req.Query 1 _ _).2 _ heq
            simpa [Tx.rollback, DB.begin] using this
          · simp [Outcome.ok]
  · intro claims report hc hr hnone
    have hlen : (db.reports.filter (ownedBy report.Id claims.Email)).length = 0 := by
      rw [List.length_eq_zero, List.filter_eq_nil_iff]
      intro r hr
      simp [hnone r hr]
    simp [UpdateReport, GetClaims, hc, hr, noFaults, DB.begin, DB.updateReport, hlen,
      Tx.rollback]

/-- Witness of C1 on the sample store: Bob, who does not own the report, sends a report
update bundled with a query edit and gets not-found with the store unchanged; Ann's
update whose bundled query edit fails is rolled back. -/
theorem UpdateReport_all_or_nothing_witness :
    ((UpdateReport noFaults sampleDB bobCtx
        ⟨some { Id := idX, Title := "Mine" }, [⟨"q1", idX, "DROP"⟩]⟩).result = .error .NotFound ∧
      (UpdateReport noFaults sampleDB bobCtx
        ⟨some { Id := idX, Title := "Mine" }, [⟨"q1", idX, "DROP"⟩]⟩).db = sampleDB) ∧
    (UpdateReport { exec := fun k => k == 1 } sampleDB annCtx
        ⟨some { Id := idX, Title := "New" }, [⟨"q1", idX, "SELECT 2"⟩]⟩).db = sampleDB := by
  have h := (UpdateReport_all_or_nothing noFaults sampleDB bobCtx
    ⟨some { Id := idX, Title := "Mine" }, [⟨"q1", idX, "DROP"⟩]⟩).2
      ⟨"bob@example.org"⟩ { Id := idX, Title := "Mine" } rfl rfl (by decide)
  exact ⟨⟨h.1, h.2.1⟩, (UpdateReport_all_or_nothing { exec := fun k => k == 1 } sampleDB annCtx
    ⟨some { Id := idX, Title := "New" }, [⟨"q1", idX, "SELECT 2"⟩]⟩).1 rfl⟩

theorem pings_append (a b : List Event) : pings (a ++ b) = pings a ++ pings b := by
  simp [pings, List.filterMap_append]

/-- The loop over the bundled query edits only appends transaction writes. -/
theorem saveQueries_trace (f : Faults) (qs : List Query) :
    ∀ (k : Nat) (tx : Tx) (ev : List Event),
      (∀ r, saveQueries f k qs tx ev = .ok r → ∃ n, r.2 = ev ++ List.replicate n Event.txWrite) ∧
      (∀ r, saveQueries f k qs tx ev = .error r → ∃ n, r.2 = ev ++ List.replicate n Event.txWrite) := by
  induction qs with
  | nil =>
    intro k tx ev
    constructor <;> intro r h <;> simp [saveQueries] at h
    subst h; exact ⟨0, by simp⟩
  | cons q rest ih =>
    intro k tx ev
    by_cases hk : f.exec k = true
    · constructor <;> intro r h <;> simp [saveQueries, hk] at h
      subst h; exact ⟨0, by simp⟩
    · have := ih (k + 1) { tx with work := (tx.work.updateQueryText q.QueryText q.Id).1 }
        (ev ++ [Event.txWrite])
      constructor <;> intro r h <;> simp [saveQueries, hk] at h
      · obtain ⟨n, hn⟩ := this.1 r h
        exact ⟨n + 1, by simp [hn, List.replicate_succ]⟩
      · obtain ⟨n, hn⟩ := this.2 r h
        exact ⟨n + 1, by simp [hn, List.replicate_succ]⟩

theorem pings_replicate_txWrite (n : Nat) : pings (List.replicate n Event.txWrite) = [] := by
  induction n with
  | zero => rfl
  | succ n ih => simp [List.replicate_succ, pings]

theorem pingAfterDurable_of_no_ping (tr : List Event) (h : pings tr = []) :
    PingAfterDurable tr := by
  intro pre r post heq
  subst heq
  simp [pings_append, pings] at h

/-- A trace with no publish before its first durable event publishes only after it. -/
theorem pingAfterDurable_of_durable (a b : List Event) (d : Event) (ha : pings a = [])
    (hd : isDurable d = true) : PingAfterDurable (a ++ d :: b) := by
  intro pre r post heq
  rcases List.append_eq_append_iff.1 heq with ⟨a', h1, h2⟩ | ⟨c', h1, h2⟩
  · cases a' with
    | nil =>
      simp at h2
      rw [h2.1] at hd
      simp [isDurable] at hd
    | cons x xs =>
      simp at h2
      exact ⟨d, by simp [h1, h2.1], hd⟩
  · cases c' with
    | nil =>
      simp at h2
      rw [← h2.1] at hd
      simp [isDurable] at hd
    | cons x xs =>
      simp at h2
      rw [h1, ← h2.1] at ha
      simp [pings_append, pings] at ha

theorem CreateQuery_discipline (rand : Nat → Option String) (f : Faults) (db : DB)
    (ctx : Context) (req : CreateQueryRequest) :
    PublishDiscipline (CreateQuery rand f db ctx req) := by
  unfold CreateQuery
  cases req.Query with
  | none => simp [PublishDiscipline, Outcome.ok, pings, pingAfterDurable_of_no_ping]
  | some query =>
    cases rand 0 with
    | none => simp [PublishDiscipline, Outcome.ok, pings, pingAfterDurable_of_no_ping]
    | some u =>
      simp only []
      split
      · simp [PublishDiscipline, Outcome.ok, pings, pingAfterDurable_of_no_ping]
      · refine ⟨by simp [Outcome.ok, pings], by simp [pings], ?_⟩
        exact pingAfterDurable_of_durable [] _ Event.write rfl rfl

theorem UpdateQuery_discipline (f : Faults) (db : DB) (ctx : Context)
    (req : UpdateQueryRequest) : PublishDiscipline (UpdateQuery f db ctx req) := by
  unfold UpdateQuery
  cases req.Query with
  | none => simp [PublishDiscipline, Outcome.ok, pings, pingAfterDurable_of_no_ping]
  | some query =>
    simp only []
    split_ifs
    · simp [PublishDiscipline, Outcome.ok, pings, pingAfterDurable_of_no_ping]
    · simp [PublishDiscipline, Outcome.ok, pings, pingAfterDurable_of_no_ping]
    · simp [PublishDiscipline, Outcome.ok, pings, pingAfterDurable_of_no_ping]
    · simp [PublishDiscipline, Outcome.ok, pings, pingAfterDurable_of_no_ping]
    · split
      · simp [PublishDiscipline, Outcome.ok, pings, pingAfterDurable_of_no_ping]
      · refine ⟨by simp [Outcome.ok, pings], by simp [pings], ?_⟩
        exact pingAfterDurable_of_durable [] _ Event.write rfl rfl

theorem ArchiveReport_discipline (uuidParse : String → Bool) (f : Faults) (db : DB)
    (ctx : Context) (req : ArchiveReportRequest) :
    PublishDiscipline (ArchiveReport uuidParse f db ctx req) := by
  unfold ArchiveReport
  cases GetClaims ctx with
  | none => simp [PublishDiscipline, Outcome.ok, pings, pingAfterDurable_of_no_ping]
  | some claims =>
    simp only []
    split_ifs
    · simp [PublishDiscipline, Outcome.ok, pings, pingAfterDurable_of_no_ping]
    · simp [PublishDiscipline, Outcome.ok, pings, pingAfterDurable_of_no_ping]
    · simp [PublishDiscipline, Outcome.ok, pings, pingAfterDurable_of_no_ping]
    · simp [PublishDiscipline, Outcome.ok, pings, pingAfterDurable_of_no_ping]
    · refine ⟨by simp [Outcome.ok, pings], by simp [pings], ?_⟩
      exact pingAfterDurable_of_durable [] _ Event.write rfl rfl

theorem UpdateReport_discipline (f : Faults) (db : DB) (ctx : Context)
    (req : UpdateReportRequest) : PublishDiscipline (UpdateReport f db ctx req) := by
  unfold UpdateReport
  cases GetClaims ctx with
  | none => simp [PublishDiscipline, Outcome.ok, pings, pingAfterDurable_of_no_ping]
  | some claims =>
    cases req.Report with
    | none => simp [PublishDiscipline, Outcome.ok, pings, pingAfterDurable_of_no_ping]
    | some report =>
      simp only []
      split_ifs with h1 h2 h3 h4 h5
      · simp [PublishDiscipline, Outcome.ok, pings, pingAfterDurable_of_no_ping]
      · simp [PublishDiscipline, Outcome.ok, pings, pingAfterDurable_of_no_ping]
      · simp [PublishDiscipline, Outcome.ok, pings, pingAfterDurable_of_no_ping]
      · simp [PublishDiscipline, Outcome.ok, pings, pingAfterDurable_of_no_ping]
      · split
        · rename_i tx ev heq
          obtain ⟨n, hn⟩ := (saveQueries_trace f req.Query 1 _ _).2 _ heq
          simp only [] at hn
          have hp : pings (ev ++ [Event.rollback]) = [] := by
            rw [hn]; simp [pings_append, pings_replicate_txWrite]; simp [pings]
          exact ⟨by simp [Outcome.ok, hp], by simp [hp], pingAfterDurable_of_no_ping _ hp⟩
        · rename_i tx ev heq
          obtain ⟨n, hn⟩ := (saveQueries_trace f req.Query 1 _ _).1 _ heq
          simp only [] at hn
          have hp : pings ev = [] := by
            rw [hn]; simp [pings_append, pings_replicate_txWrite]; simp [pings]
          exact ⟨by simp [Outcome.ok, hp], by simp [hp], pingAfterDurable_of_no_ping _ hp⟩
      · split
        · rename_i tx ev heq
          obtain ⟨n, hn⟩ := (saveQueries_trace f req.Query 1 _ _).2 _ heq
          simp only [] at hn
          have hp : pings (ev ++ [Event.rollback]) = [] := by
            rw [hn]; simp [pings_append, pings_replicate_txWrite]; simp [pings]
          exact ⟨by simp [Outcome.ok, hp], by simp [hp], pingAfterDurable_of_no_ping _ hp⟩
        · rename_i tx ev heq
          obtain ⟨n, hn⟩ := (saveQueries_trace f req.Query 1 _ _).1 _ heq
          simp only [] at hn
          have hp : pings ev = [] := by
            rw [hn]; simp [pings_append, pings_replicate_txWrite]; simp [pings]
          have hq : pings (ev ++ [Event.commit, Event.ping report.Id]) = [report.Id] := by
            rw [pings_append, hp]; rfl
          refine ⟨by simp [Outcome.ok, hq], by simp [hq], ?_⟩
          exact pingAfterDurable_of_durable ev _ Event.commit hp rfl

/-- C2: for each publishing mutation (CreateQuery, UpdateQuery, UpdateReport,
ArchiveReport) and every execution of it, whatever fails: the call returns success if
and only if exactly one publish was issued, at most one publish is issued, and every
publish in the trace is preceded by the successful direct write, or by the successful
commit, of the same call. -/
theorem publish_only_after_durable_write :
    (∀ rand f db ctx req, PublishDiscipline (CreateQuery rand f db ctx req)) ∧
    (∀ f db ctx req, PublishDiscipline (UpdateQuery f db ctx req)) ∧
    (∀ f db ctx req, PublishDiscipline (UpdateReport f db ctx req)) ∧
    (∀ uuidParse f db ctx req, PublishDiscipline (ArchiveReport uuidParse f db ctx req)) :=
  ⟨CreateQuery_discipline, UpdateQuery_discipline, UpdateReport_discipline,
    ArchiveReport_discipline⟩

/-- A snapshot starts with its storage read and makes no registry call. -/
theorem sendReportMessage_trace (f : Faults) (db : DB) (reportID : String) :
    ∃ tl, (sendReportMessage f db reportID).2 = Event.read reportID :: tl ∧
      ∀ e ∈ tl, isHub e = false := by
  unfold sendReportMessage
  simp only []
  repeat' split
  all_goals first | exact ⟨[], rfl, by simp⟩ | exact ⟨_, rfl, by simp [isHub]⟩

/-- The wait loop makes no registry call. -/
theorem waitLoop_no_hub (reportID : String) (done : Nat × DoneCause) (ticks : List Tick) :
    ∀ now, ∀ e ∈ (waitLoop reportID done now ticks).2, isHub e = false := by
  induction ticks with
  | nil => intro now e he; simp [waitLoop] at he; subst he; rfl
  | cons p rest ih =>
    intro now e he
    unfold waitLoop at he
    simp only [] at he
    obtain ⟨tl, htl, hno⟩ := sendReportMessage_trace p.faults p.db reportID
    split_ifs at he
    · split at he
      · simp [htl] at he
        rcases he with rfl | rfl | he
        · rfl
        · rfl
        · exact hno e he
      · simp [htl] at he
        rcases he with rfl | rfl | he | he
        · rfl
        · rfl
        · exact hno e he
        · exact ih _ e he
    · simp at he; subst he; rfl

/-- C3: in every execution of GetReportStream that passes request validation and
subscriber-id generation, the first event is the hub registration for
(req.Report.Id, streamID), the initial snapshot read comes right after it, the last
event before the call returns is the deregistration of the same pair, and no other
registration or deregistration happens in between, whichever way the session ends
(initial-snapshot error, error on a re-send after a ping, deadline, cancellation). -/
theorem GetReportStream_register_before_read_deregister_once (sid : String) (env : StreamEnv)
    (report : Report) :
    ∃ mid, (GetReportStream (some sid) env ⟨some report⟩).2 =
        Event.register report.Id sid :: Event.read report.Id ::
          (mid ++ [Event.deregister report.Id sid]) ∧
      ∀ e ∈ mid, isHub e = false := by
  obtain ⟨tl, htl, hno⟩ := sendReportMessage_trace env.f0 env.db0 report.Id
  simp only [GetReportStream, streamBody]
  split
  · exact ⟨tl, by simp [htl], hno⟩
  · refine ⟨tl ++ (waitLoop report.Id (doneAt (env.start + env.dur0 + 10 * second) env.cancelAt)
        (env.start + env.dur0) env.ticks).2 ++ [Event.cancelTimeout], by simp [htl], ?_⟩
    intro e he
    simp at he
    rcases he with he | he | rfl
    · exact hno e he
    · exact waitLoop_no_hub _ _ _ _ e he
    · rfl

theorem filter_length_eq_zero_iff {α : Type} (p : α → Bool) (l : List α) :
    (l.filter p).length = 0 ↔ ∀ x ∈ l, p x = false := by
  rw [List.length_eq_zero, List.filter_eq_nil_iff]
  simp

theorem map_ite_eq_self {α : Type} (p : α → Bool) (g : α → α) (l : List α)
    (h : ∀ x ∈ l, p x = false) : (l.map fun x => if p x then g x else x) = l := by
  induction l with
  | nil => rfl
  | cons a t ih =>
    have ha : p a = false := h a (by simp)
    have ht := ih (fun x hx => h x (by simp [hx]))
    simp [ha, ht]

/-- C7: for an ArchiveReport call by an authenticated caller with no storage failure:
when the identifier is well-formed, the call returns not-found with every stored row
unchanged if and only if no report with that identifier is owned by the caller;
otherwise it returns success, the archived flag of the rows with that identifier and
owner becomes `archive`, and no other field, report or query changes. A malformed
identifier is rejected as invalid-argument with no storage event, whatever would fail. -/
theorem ArchiveReport_owner_scoped (uuidParse : String → Bool) (db : DB) (claims : Claims)
    (req : ArchiveReportRequest) :
    (uuidParse req.ReportId = true →
      (((ArchiveReport uuidParse noFaults db ⟨some claims⟩ req).result = .error .NotFound ∧
          (ArchiveReport uuidParse noFaults db ⟨some claims⟩ req).db = db) ↔
        ∀ r ∈ db.reports, ¬ (r.id = req.ReportId ∧ r.author_email = some claims.Email)) ∧
      ((∃ r ∈ db.reports, r.id = req.ReportId ∧ r.author_email = some claims.Email) →
        (ArchiveReport uuidParse noFaults db ⟨some claims⟩ req).result = .ok () ∧
        (ArchiveReport uuidParse noFaults db ⟨some claims⟩ req).db.reports =
          db.reports.map (fun r =>
            if r.id = req.ReportId ∧ r.author_email = some claims.Email
            then { r with archived := req.Archive } else r) ∧
        (ArchiveReport uuidParse noFaults db ⟨some claims⟩ req).db.queries = db.queries)) ∧
    (uuidParse req.ReportId = false → ∀ f,
      (ArchiveReport uuidParse f db ⟨some claims⟩ req).result = .error .InvalidArgument ∧
      (ArchiveReport uuidParse f db ⟨some claims⟩ req).db = db ∧
      (ArchiveReport uuidParse f db ⟨some claims⟩ req).trace = []) := by
  refine ⟨fun hp => ⟨?_, ?_⟩, fun hp f => ?_⟩
  · by_cases h0 : (db.reports.filter (ownedBy req.ReportId claims.Email)).length = 0
    · have hall := (filter_length_eq_zero_iff _ _).1 h0
      have hmap := map_ite_eq_self (ownedBy req.ReportId claims.Email)
        (fun r => { r with archived := req.Archive }) db.reports hall
      have hno : ∀ r ∈ db.reports, ¬ (r.id = req.ReportId ∧ r.author_email = some claims.Email) := by
        intro r hr
        have := hall r hr
        simpa [ownedBy] using this
      simp only [ArchiveReport, GetClaims, hp, noFaults, DB.updateArchived, h0, hmap]
      simpa using hno
    · have hex : ¬ ∀ r ∈ db.reports, ¬ (r.id = req.ReportId ∧ r.author_email = some claims.Email) := by
        intro hall
        apply h0
        rw [filter_length_eq_zero_iff]
        intro r hr
        have := hall r hr
        simpa [ownedBy] using this
      simp only [ArchiveReport, GetClaims, hp, noFaults, DB.updateArchived]
      simp only [not_forall, not_not] at hex
      obtain ⟨r, hr, hrr⟩ := hex
      simp [h0]
      exact ⟨r, hr, hrr⟩
  · rintro ⟨r, hr, hid, hown⟩
    have h0 : (db.reports.filter (ownedBy req.ReportId claims.Email)).length ≠ 0 := by
      rw [Ne, filter_length_eq_zero_iff]
      intro hall
      have := hall r hr
      simp [ownedBy, hid, hown] at this
    simp only [ArchiveReport, GetClaims, hp, noFaults, DB.updateArchived]
    simp [h0, ownedBy]
  · simp [ArchiveReport, GetClaims, hp]

/-- Witness of C7 on the sample store: its owner archives the report, another caller
gets not-found and changes nothing. -/
theorem ArchiveReport_owner_scoped_witness :
    ((ArchiveReport canonicalUUID noFaults sampleDB annCtx ⟨idX, true⟩).result = .ok () ∧
      (ArchiveReport canonicalUUID noFaults sampleDB annCtx ⟨idX, true⟩).db.reports =
        [⟨idX, some "ann@example.org", some "M", some "T", true⟩]) ∧
    ((ArchiveReport canonicalUUID noFaults sampleDB bobCtx ⟨idX, true⟩).result = .error .NotFound ∧
      (ArchiveReport canonicalUUID noFaults sampleDB bobCtx ⟨idX, true⟩).db = sampleDB) :=
  ⟨by
    have h := ((ArchiveReport_owner_scoped canonicalUUID sampleDB ⟨"ann@example.org"⟩
      ⟨idX, true⟩).1 (by decide)).2 ⟨_, List.mem_singleton.2 rfl, rfl, rfl⟩
    exact ⟨h.1, h.2.1.trans (by decide)⟩,
   ((ArchiveReport_owner_scoped canonicalUUID sampleDB ⟨"bob@example.org"⟩
      ⟨idX, true⟩).1 (by decide)).1.2 (by decide)⟩

/-- After the text update, the read-back `select report_id ... limit 1` yields the
report identifier of the first stored row with the given identifier. -/
theorem readBack_report_id (id text : String) (row : QueryRow) (l : List QueryRow)
    (h : l.find? (fun q => q.id == id) = some row) :
    (((l.map fun q => if q.id == id then { q with query_text := text } else q).filter
        fun q => q.id == id).take 1).map (·.report_id) = [row.report_id] := by
  induction l with
  | nil => simp at h
  | cons a t ih =>
    by_cases ha : a.id = id
    · simp [List.find?, ha] at h
      subst h
      simp [ha, List.filter_cons]
    · have hb : (a.id == id) = false := by simpa using ha
      rw [List.find?_cons, hb] at h
      have := ih h
      simpa [ha, List.filter_cons] using this

/-- C8: for an UpdateQuery call with a query and no storage failure: if no stored query
has the supplied identifier, the call returns not-found, the store is unchanged and
nothing is published; otherwise the call returns success, the text of the stored query
with that identifier becomes the supplied text and nothing else changes, and the one
publish issued targets the report identifier stored on that query row, whatever report
identifier the request carries. -/
theorem UpdateQuery_publishes_stored_report (db : DB) (ctx : Context) (query : Query) :
    ((∀ q ∈ db.queries, q.id ≠ query.Id) →
      (UpdateQuery noFaults db ctx ⟨some query⟩).result = .error .NotFound ∧
      (UpdateQuery noFaults db ctx ⟨some query⟩).db = db ∧
      pings (UpdateQuery noFaults db ctx ⟨some query⟩).trace = []) ∧
    (∀ row, db.queries.find? (fun q => q.id == query.Id) = some row →
      (UpdateQuery noFaults db ctx ⟨some query⟩).result = .ok { Id := query.Id } ∧
      (UpdateQuery noFaults db ctx ⟨some query⟩).db.queries =
        db.queries.map (fun q =>
          if q.id = query.Id then { q with query_text := query.QueryText } else q) ∧
      (UpdateQuery noFaults db ctx ⟨some query⟩).db.reports = db.reports ∧
      (UpdateQuery noFaults db ctx ⟨some query⟩).trace = [.write, .ping row.report_id]) := by
  constructor
  · intro hno
    have hall : ∀ q ∈ db.queries, (fun q : QueryRow => q.id == query.Id) q = false := by
      intro q hq
      simpa using hno q hq
    have h0 := (filter_length_eq_zero_iff _ _).2 hall
    have hmap := map_ite_eq_self (fun q : QueryRow => q.id == query.Id)
      (fun q => { q with query_text := query.QueryText }) db.queries hall
    simp only [UpdateQuery, noFaults, DB.updateQueryText, h0, hmap]
    simp [pings]
  · intro row hrow
    have hmem := List.mem_of_find?_eq_some hrow
    have hp := List.find?_some hrow
    have h0 : (db.queries.filter fun q => q.id == query.Id).length ≠ 0 := by
      rw [Ne, filter_length_eq_zero_iff]
      intro hall
      have := hall row hmem
      simp [hp] at this
    have hrb := readBack_report_id query.Id query.QueryText row db.queries hrow
    simp only [UpdateQuery, noFaults, DB.updateQueryText]
    simp only [hrb]
    simp [h0, scanLast]

/-- Witness of C8 on the sample store: the request names report `other`, the publish
goes to the report stored on the query row. -/
theorem UpdateQuery_publishes_stored_report_witness :
    (UpdateQuery noFaults sampleDB anonCtx ⟨some ⟨"q1", "other", "SELECT 2"⟩⟩).result =
        .ok { Id := "q1" } ∧
      (UpdateQuery noFaults sampleDB anonCtx ⟨some ⟨"q1", "other", "SELECT 2"⟩⟩).db.queries =
        [⟨"q1", idX, "SELECT 2"⟩] ∧
      (UpdateQuery noFaults sampleDB anonCtx ⟨some ⟨"q1", "other", "SELECT 2"⟩⟩).trace =
        [.write, .ping idX] := by
  have h := (UpdateQuery_publishes_stored_report sampleDB anonCtx ⟨"q1", "other", "SELECT 2"⟩).2
    ⟨"q1", idX, "SELECT 1"⟩ (by decide)
  exact ⟨h.1, h.2.1.trans (by decide), h.2.2.2⟩

/-- A successful insert into `queries` appends the row; its identifier was unused. -/
theorem insertQuery_some (db w : DB) (row : QueryRow) (fails : Bool)
    (h : db.insertQuery row fails = some w) :
    w = { db with queries := db.queries ++ [row] } ∧ (∀ q ∈ db.queries, q.id ≠ row.id) := by
  unfold DB.insertQuery at h
  split_ifs at h with hc
  simp only [Option.some.injEq] at h
  refine ⟨h.symm, ?_⟩
  simp only [Bool.or_eq_true, not_or] at hc
  intro q hq heq
  apply hc.1.2
  simp only [List.any_eq_true]
  exact ⟨q, hq, by simp [heq]⟩

/-- A successful insert into `reports` appends the row; its identifier was unused. -/
theorem insertReport_some (db w : DB) (row : ReportRow) (fails : Bool)
    (h : db.insertReport row fails = some w) :
    w = { db with reports := db.reports ++ [row] } ∧ (∀ r ∈ db.reports, r.id ≠ row.id) := by
  unfold DB.insertReport at h
  split_ifs at h with hc
  simp only [Option.some.injEq] at h
  refine ⟨h.symm, ?_⟩
  simp only [Bool.or_eq_true, not_or] at hc
  intro r hr heq
  apply hc.2
  simp only [List.any_eq_true]
  exact ⟨r, hr, by simp [heq]⟩

/-- The copy loop of a fork, when it completes: one new row per source query, in
order, with the source text, under identifiers that were unused and are pairwise
distinct; nothing else changes and nothing is published. -/
theorem insertQueries_ok (f : Faults) (rand : Nat → Option String) (reportId : String)
    (qs : List Query) :
    ∀ (k : Nat) (tx : Tx) (ev : List Event) (r : Tx × List Event),
      insertQueries f rand reportId k qs tx ev = .ok r →
      ∃ ids : List String, ids.length = qs.length ∧ ids.Nodup ∧
        (∀ i ∈ ids, ∀ q ∈ tx.work.queries, q.id ≠ i) ∧
        r.1.work.queries = tx.work.queries ++
          List.zipWith (fun i q => (⟨i, reportId, q.QueryText⟩ : QueryRow)) ids qs ∧
        r.1.work.reports = tx.work.reports ∧ r.1.base = tx.base ∧ pings r.2 = pings ev := by
  induction qs with
  | nil =>
    intro k tx ev r h
    simp [insertQueries] at h
    subst h
    exact ⟨[], by simp⟩
  | cons q rest ih =>
    intro k tx ev r h
    unfold insertQueries at h
    split at h
    · simp at h
    · rename_i queryId _
      split at h
      · simp at h
      · rename_i w hw
        obtain ⟨hw1, hw2⟩ := insertQuery_some _ _ _ _ hw
        obtain ⟨ids, hlen, hnd, hfresh, hq, hr, hb, hp⟩ := ih _ _ _ _ h
        subst hw1
        simp only [] at hfresh hq hr hb hp
        refine ⟨queryId :: ids, by simp [hlen], ?_, ?_, ?_, hr, hb, ?_⟩
        · refine List.nodup_cons.2 ⟨?_, hnd⟩
          intro hmem
          exact hfresh queryId hmem ⟨queryId, reportId, q.QueryText⟩ (by simp) rfl
        · intro i hi x hx
          rcases List.mem_cons.1 hi with rfl | hi
          · exact hw2 x hx
          · exact hfresh i hi x (by simp [hx])
        · simp [hq]
        · rw [hp, pings_append]; simp [pings]

theorem take_one_filter {α : Type} (p : α → Bool) (l : List α) :
    (l.filter p).take 1 = (l.find? p).toList := by
  induction l with
  | nil => rfl
  | cons a t ih =>
    by_cases ha : p a = true
    · simp [List.filter_cons, List.find?_cons, ha]
    · have hb : p a = false := by simpa using ha
      simp [List.filter_cons, List.find?_cons, hb, ih]

/-- What `getReport` returns when it finds a report: the first stored row with the
identifier that is not archived, its title read as `Untitled` and its map config as
the empty string when null. -/
theorem getReport_some (qf sf : Bool) (db : DB) (ctx : Context) (reportID : String)
    (report : Report) (h : getReport qf sf db ctx reportID = .ok (some report)) :
    ∃ claims x a, ctx.claims = some claims ∧
      db.reports.find? (fun r => r.id == reportID && !r.archived) = some x ∧
      x.author_email = some a ∧
      report = { Id := x.id, MapConfig := x.map_config.getD "", Title := x.title.getD "Untitled",
                 CanWrite := a == claims.Email } := by
  cases hc : ctx.claims with
  | none => simp [getReport, GetClaims, hc] at h
  | some claims =>
    by_cases hq : qf = true
    · simp [getReport, GetClaims, hc, hq] at h
    · cases hx : db.reports.find? (fun r => r.id == reportID && !r.archived) with
      | none => simp [getReport, GetClaims, hc, hq, take_one_filter, hx, scanReports] at h
      | some x =>
        by_cases hs : sf = true
        · simp [getReport, GetClaims, hc, hq, take_one_filter, hx, scanReports, hs] at h
        · cases ha : x.author_email with
          | none =>
            simp [getReport, GetClaims, hc, hq, take_one_filter, hx, scanReports, hs,
              scanReport, ha] at h
          | some a =>
            simp only [getReport, GetClaims, hc, hq, take_one_filter, hx, scanReports, hs,
              scanReport, ha, Option.toList] at h
            by_cases hid : x.id = ""
            · simp [hid] at h
            · simp [hid] at h
              exact ⟨claims, x, a, rfl, rfl, ha, h.symm⟩

/-- What a committed `commitReportWithQueries` leaves behind. -/
theorem commitReportWithQueries_ok (f : Faults) (rand : Nat → Option String) (db : DB)
    (ctx : Context) (report : Report) (queries : List Query)
    (h : (commitReportWithQueries f rand db ctx report queries).ok = true) :
    ∃ claims ids, ctx.claims = some claims ∧ (∀ r ∈ db.reports, r.id ≠ report.Id) ∧
      ids.length = queries.length ∧ ids.Nodup ∧ (∀ i ∈ ids, ∀ q ∈ db.queries, q.id ≠ i) ∧
      (commitReportWithQueries f rand db ctx report queries).db.reports = db.reports ++
        [⟨report.Id, some claims.Email, some report.MapConfig, some report.Title, false⟩] ∧
      (commitReportWithQueries f rand db ctx report queries).db.queries = db.queries ++
        List.zipWith (fun i q => (⟨i, report.Id, q.QueryText⟩ : QueryRow)) ids queries ∧
      pings (commitReportWithQueries f rand db ctx report queries).trace = [] := by
  cases hc : ctx.claims with
  | none =>
    by_cases hb : f.beginTx = true
    · simp [commitReportWithQueries, GetClaims, hc, hb, Outcome.ok] at h
    · simp [commitReportWithQueries, GetClaims, hc, hb, Outcome.ok] at h
  | some claims =>
    by_cases hb : f.beginTx = true
    · simp [commitReportWithQueries, GetClaims, hc, hb, Outcome.ok] at h
    · cases hw : db.insertReport
          ⟨report.Id, some claims.Email, some report.MapConfig, some report.Title, false⟩
          (f.exec 0) with
      | none => simp [commitReportWithQueries, GetClaims, hc, hb, DB.begin, hw, Outcome.ok] at h
      | some w =>
        obtain ⟨hw1, hw2⟩ := insertReport_some _ _ _ _ hw
        cases hi : insertQueries f rand report.Id 1 queries ⟨db, w⟩
            [Event.beginTx, Event.txWrite] with
        | error e =>
          simp [commitReportWithQueries, GetClaims, hc, hb, DB.begin, hw, hi, Outcome.ok] at h
        | ok r =>
          obtain ⟨tx, ev⟩ := r
          obtain ⟨ids, hlen, hnd, hfresh, hq, hr, hbase, hp⟩ :=
            insertQueries_ok _ _ _ _ _ _ _ _ hi
          subst hw1
          simp only [] at hfresh hq hr hbase hp hw2
          by_cases hcm : f.commit = true
          · simp [commitReportWithQueries, GetClaims, hc, hb, DB.begin, hw, hi, hcm,
              Outcome.ok] at h
          · simp only [commitReportWithQueries, GetClaims, hc, hb, DB.begin, hw, hi, hcm]
            refine ⟨claims, ids, rfl, hw2, hlen, hnd, ?_, ?_, ?_, ?_⟩
            · intro i hi x hx
              exact hfresh i hi x (by simpa using hx)
            · simpa [Tx.commit] using hr
            · simpa [Tx.commit] using hq
            · simp only [Bool.false_eq_true, if_false]
              rw [pings_append, hp]; simp [pings]

theorem zipWith_report_id (reportId : String) (g : QueryRow → String) :
    ∀ (ids : List String) (qs : List QueryRow),
      ∀ e ∈ List.zipWith (fun i q => (⟨i, reportId, g q⟩ : QueryRow)) ids qs,
        e.report_id = reportId := by
  intro ids
  induction ids with
  | nil => intro qs e he; simp at he
  | cons i t ih =>
    intro qs e he
    cases qs with
    | nil => simp at he
    | cons q r =>
      simp only [List.zipWith_cons_cons, List.mem_cons] at he
      rcases he with rfl | he
      · rfl
      · exact ih r e he

/-- C4: after a successful ForkReport, with X the stored non-archived report named by
the request, T its title as read (`Untitled` when absent), M its map config as read
and q1..qn its queries: the caller is authenticated; the store holds the old report
rows unchanged plus one new row Y whose identifier is the returned ReportId, differs
from X's and from every stored report identifier, is owned by the caller, has title
"Fork of T" and map config M and is not archived; the store holds the old query rows
unchanged plus exactly n new rows under Y, carrying the texts of q1..qn in order under
identifiers that are pairwise distinct and differ from every stored query identifier;
the queries under X are those it had; when the stored queries respect their foreign
key, the queries under Y are exactly the n new ones; and nothing is published. -/
theorem ForkReport_copies_report (uuidParse : String → Bool) (rand : Nat → Option String)
    (f : Faults) (db : DB) (ctx : Context) (req : ForkReportRequest) (resp : ForkReportResponse)
    (h : (ForkReport uuidParse rand f db ctx req).result = .ok resp) :
    ∃ claims x ids,
      ctx.claims = some claims ∧
      db.reports.find? (fun r => r.id == req.ReportId && !r.archived) = some x ∧
      resp.ReportId ≠ req.ReportId ∧ (∀ r ∈ db.reports, r.id ≠ resp.ReportId) ∧
      (ForkReport uuidParse rand f db ctx req).db.reports = db.reports ++
        [⟨resp.ReportId, some claims.Email, some (x.map_config.getD ""),
          some ("Fork of " ++ x.title.getD "Untitled"), false⟩] ∧
      ids.length = (db.queries.filter fun q => q.report_id == req.ReportId).length ∧
      ids.Nodup ∧ (∀ i ∈ ids, ∀ q ∈ db.queries, q.id ≠ i) ∧
      (ForkReport uuidParse rand f db ctx req).db.queries = db.queries ++
        List.zipWith (fun i q => (⟨i, resp.ReportId, q.query_text⟩ : QueryRow)) ids
          (db.queries.filter fun q => q.report_id == req.ReportId) ∧
      ((ForkReport uuidParse rand f db ctx req).db.queries.filter
          fun q => q.report_id == req.ReportId) =
        (db.queries.filter fun q => q.report_id == req.ReportId) ∧
      ((∀ q ∈ db.queries, ∃ r ∈ db.reports, r.id = q.report_id) →
        ((ForkReport uuidParse rand f db ctx req).db.queries.filter
            fun q => q.report_id == resp.ReportId) =
          List.zipWith (fun i q => (⟨i, resp.ReportId, q.query_text⟩ : QueryRow)) ids
            (db.queries.filter fun q => q.report_id == req.ReportId)) ∧
      pings (ForkReport uuidParse rand f db ctx req).trace = [] := by
  cases hc : ctx.claims with
  | none => simp [ForkReport, GetClaims, hc, Unauthenticated] at h
  | some claims =>
    by_cases hp : uuidParse req.ReportId = true
    swap
    · simp [ForkReport, GetClaims, hc, hp] at h
    cases hu : rand 0 with
    | none => simp [ForkReport, GetClaims, hc, hp, newUUID, hu] at h
    | some reportID =>
      cases hg : getReport (f.query 0) (f.scan 0) db ctx req.ReportId with
      | error e => simp [ForkReport, GetClaims, hc, hp, newUUID, hu, hg] at h
      | ok o =>
        cases o with
        | none => simp [ForkReport, GetClaims, hc, hp, newUUID, hu, hg] at h
        | some report =>
          by_cases hq : f.query 1 = true
          · simp [ForkReport, GetClaims, hc, hp, newUUID, hu, hg, getQueries, hq] at h
          · obtain ⟨claims', x, a, hc', hx, -, hrep⟩ := getReport_some _ _ _ _ _ _ hg
            rw [hc] at hc'
            cases hc'
            simp only [ForkReport, GetClaims, hc, hp, newUUID, hu, hg, getQueries, hq] at h ⊢
            simp only [Bool.not_true, Bool.false_eq_true, if_false] at h ⊢
            cases hres : (commitReportWithQueries f rand db ctx
                { report with Id := reportID, Title := "Fork of " ++ report.Title }
                ((db.queries.filter fun q => q.report_id == req.ReportId).map fun q =>
                  { Id := q.id, ReportId := q.report_id, QueryText := q.query_text })).result with
            | error e => simp [hres] at h
            | ok u =>
              simp only [hres, Except.ok.injEq] at h ⊢
              subst h
              have hok : (commitReportWithQueries f rand db ctx
                  { report with Id := reportID, Title := "Fork of " ++ report.Title }
                  ((db.queries.filter fun q => q.report_id == req.ReportId).map fun q =>
                    { Id := q.id, ReportId := q.report_id, QueryText := q.query_text })).ok
                  = true := by
                simp [Outcome.ok, hres]
              obtain ⟨claims', ids, hc', hfreshR, hlen, hnd, hfreshQ, hreps, hqs, hpg⟩ :=
                commitReportWithQueries_ok _ _ _ _ _ _ hok
              rw [hc] at hc'
              cases hc'
              simp only [List.length_map, List.zipWith_map_right] at hlen hqs
              have hxmem := List.mem_of_find?_eq_some hx
              have hxp := List.find?_some hx
              have hxid : x.id = req.ReportId := by
                simp only [Bool.and_eq_true, beq_iff_eq] at hxp
                exact hxp.1
              have hne : reportID ≠ req.ReportId := by
                intro heq
                exact hfreshR x hxmem (by simp [hxid, heq])
              have hcopies := zipWith_report_id reportID (fun q => q.query_text) ids
                (db.queries.filter fun q => q.report_id == req.ReportId)
              refine ⟨claims, x, ids, rfl, hx, hne, hfreshR, ?_, hlen, hnd, hfreshQ, hqs, ?_,
                ?_, hpg⟩
              · rw [hreps, hrep]
              · rw [hqs, List.filter_append]
                have : (List.zipWith (fun i q => (⟨i, reportID, q.query_text⟩ : QueryRow)) ids
                    (db.queries.filter fun q => q.report_id == req.ReportId)).filter
                    (fun q => q.report_id == req.ReportId) = [] := by
                  rw [List.filter_eq_nil_iff]
                  intro e he
                  simp [hcopies e he, hne]
                rw [this, List.append_nil]
              · intro hfk
                rw [hqs, List.filter_append]
                have h1 : db.queries.filter (fun q => q.report_id == reportID) = [] := by
                  rw [List.filter_eq_nil_iff]
                  intro q hq
                  obtain ⟨r, hr, hrq⟩ := hfk q hq
                  have := hfreshR r hr
                  simp only [beq_iff_eq]
                  intro heq
                  exact this (hrq.trans heq)
                rw [h1, List.nil_append, List.filter_eq_self]
                intro e he
                simp [hcopies e he]

/-- Witness of C4: Bob forks Ann's report `T` with its one query `SELECT 1`. -/
theorem ForkReport_copies_report_witness :
    (ForkReport canonicalUUID sampleRand noFaults sampleDB bobCtx ⟨idX⟩).result = .ok ⟨idY⟩ ∧
    (ForkReport canonicalUUID sampleRand noFaults sampleDB bobCtx ⟨idX⟩).db =
      { reports := [⟨idX, some "ann@example.org", some "M", some "T", false⟩,
                    ⟨idY, some "bob@example.org", some "M", some "Fork of T", false⟩],
        queries := [⟨"q1", idX, "SELECT 1"⟩, ⟨"q2", idY, "SELECT 1"⟩] } ∧
    pings (ForkReport canonicalUUID sampleRand noFaults sampleDB bobCtx ⟨idX⟩).trace = [] := by
  obtain ⟨_, _, _, -, -, -, -, -, -, -, -, -, -, -, hp⟩ :=
    ForkReport_copies_report canonicalUUID sampleRand noFaults sampleDB bobCtx ⟨idX⟩ ⟨idY⟩ rfl
  exact ⟨rfl, by decide, hp⟩

/-- The handlers of report.go return unauthenticated, with no storage event, when the
context carries no identity. -/
theorem report_go_handlers_require_identity (uuidParse : String → Bool)
    (rand : Nat → Option String) (f : Faults) (db : DB) :
    CreateReport rand f db ⟨none⟩ = ⟨.error .Unauthenticated, db, []⟩ ∧
    (∀ req, UpdateReport f db ⟨none⟩ req = ⟨.error .Unauthenticated, db, []⟩) ∧
    (∀ req, ArchiveReport uuidParse f db ⟨none⟩ req = ⟨.error .Unauthenticated, db, []⟩) ∧
    (∀ req, ForkReport uuidParse rand f db ⟨none⟩ req = ⟨.error .Unauthenticated, db, []⟩) :=
  ⟨rfl, fun _ => rfl, fun _ => rfl, fun _ => rfl⟩

theorem scanQueries_ok (reportId : String) (l : List QueryRow) :
    ∀ acc, scanQueries false reportId l acc =
      .ok (acc ++ l.map fun q => { Id := q.id, ReportId := reportId, QueryText := q.query_text }) := by
  induction l with
  | nil => intro acc; simp [scanQueries]
  | cons q t ih => intro acc; simp [scanQueries, ih]

/-- The message `sendReportMessage` sends for a stored report with a non-empty
identifier, when nothing fails: the identifier alone in the report part, and exactly
the stored queries of that report, each with its identifier and text. -/
theorem sendReportMessage_message (db : DB) (reportID : String) (hne : reportID ≠ "")
    (h : ∃ r ∈ db.reports, r.id = reportID) :
    sendReportMessage noFaults db reportID =
      (.ok (), [.read reportID, .send ⟨{ Id := reportID },
        (db.queries.filter fun q => q.report_id == reportID).map fun q =>
          { Id := q.id, ReportId := reportID, QueryText := q.query_text }⟩]) := by
  obtain ⟨r, hr, hid⟩ := h
  cases hx : db.reports.find? (fun r => r.id == reportID) with
  | none =>
    rw [List.find?_eq_none] at hx
    exact absurd (by simp [hid]) (hx r hr)
  | some x =>
    have hxid : x.id = reportID := by simpa using List.find?_some hx
    simp [sendReportMessage, noFaults, take_one_filter, hx, scanLast, hxid, hne, scanQueries_ok]

/-- A stream opened for an identifier that names no stored report fails with not-found
after registering, sends nothing and deregisters. -/
theorem GetReportStream_absent_report (sid : String) (env : StreamEnv) (report : Report)
    (hf : env.f0 = noFaults) (h : ∀ r ∈ env.db0.reports, r.id ≠ report.Id) :
    GetReportStream (some sid) env ⟨some report⟩ =
      (.error .NotFound,
        [.register report.Id sid, .read report.Id, .deregister report.Id sid]) := by
  have hx : env.db0.reports.find? (fun r => r.id == report.Id) = none := by
    rw [List.find?_eq_none]
    intro r hr
    simpa using h r hr
  simp [GetReportStream, streamBody, sendReportMessage, hf, noFaults, take_one_filter, hx,
    scanLast]

/-- C5 (what the code does): on the sample store, whose report has title `T`, map
config `M` and owner Ann, the message sent by `sendReportMessage` carries the report
identifier and the report's one query, but an empty title, an empty map config and
`can_write` false, while `getReport` reads `T`, `M` and `can_write` true for Ann. -/
theorem sendReportMessage_sends_only_id :
    sendReportMessage noFaults sampleDB idX =
      (.ok (), [.read idX,
        .send ⟨{ Id := idX, MapConfig := "", Title := "", CanWrite := false },
          [⟨"q1", idX, "SELECT 1"⟩]⟩]) ∧
    getReport false false sampleDB annCtx idX =
      .ok (some { Id := idX, MapConfig := "M", Title := "T", CanWrite := true }) :=
  ⟨rfl, rfl⟩

/-- C6 (what the code does): Ann archives the sample report successfully; a
GetReportStream opened afterwards for it sends the snapshot and ends without error at
the deadline, while `getReport` no longer finds the report. -/
theorem GetReportStream_serves_archived_report :
    (ArchiveReport canonicalUUID noFaults sampleDB annCtx ⟨idX, true⟩).result = .ok () ∧
    GetReportStream (some "s1")
        (quietEnv (ArchiveReport canonicalUUID noFaults sampleDB annCtx ⟨idX, true⟩).db)
        ⟨some { Id := idX }⟩ =
      (.ok (), [.register idX "s1", .read idX,
        .send ⟨{ Id := idX }, [⟨"q1", idX, "SELECT 1"⟩]⟩,
        .ctxDone 10000 .deadline, .cancelTimeout, .deregister idX "s1"]) ∧
    getReport false false (ArchiveReport canonicalUUID noFaults sampleDB annCtx ⟨idX, true⟩).db
        annCtx idX = .ok none :=
  ⟨rfl, rfl, rfl⟩

/-- C9 (what the code does): with no caller identity in the context, CreateQuery
inserts the query, publishes and returns success, UpdateQuery changes the stored
text, publishes and returns success, and CreateReport of dekart.go inserts a report
with no owner. -/
theorem CreateQuery_UpdateQuery_without_identity :
    CreateQuery sampleRand noFaults sampleDB anonCtx ⟨some ⟨"", idX, "SELECT 3"⟩⟩ =
      ⟨.ok ⟨idY, idX, "SELECT 3"⟩,
        { sampleDB with queries := [⟨"q1", idX, "SELECT 1"⟩, ⟨idY, idX, "SELECT 3"⟩] },
        [.write, .ping idX]⟩ ∧
    UpdateQuery noFaults sampleDB anonCtx ⟨some ⟨"q1", "", "DROP"⟩⟩ =
      ⟨.ok { Id := "q1" }, { sampleDB with queries := [⟨"q1", idX, "DROP"⟩] },
        [.write, .ping idX]⟩ ∧
    DekartGo.CreateReport sampleRand noFaults sampleDB anonCtx =
      ⟨.ok ⟨{ Id := idY }⟩,
        { sampleDB with reports := sampleDB.reports ++ [⟨idY, none, none, none, false⟩] },
        [.write]⟩ :=
  ⟨rfl, rfl, rfl⟩

/-- A snapshot records no `ctx.Done()` event. -/
theorem sendReportMessage_no_ctxDone (f : Faults) (db : DB) (reportID : String) (e : Nat)
    (c : DoneCause) : Event.ctxDone e c ∉ (sendReportMessage f db reportID).2 := by
  unfold sendReportMessage
  simp only []
  repeat' split
  all_goals simp

/-- The wait loop waits on one closing instant `done.1` in all its iterations: when it
leaves through `ctx.Done()`, the cause is that of the closing and the exit time is the
later of `done.1` and the instant `b` at which its last iteration began, which is
either the instant the loop was entered or the instant the re-send of a consumed
wake-up finished. -/
theorem waitLoop_exit (reportID : String) (done : Nat × DoneCause) (ticks : List Tick) :
    ∀ now e c, Event.ctxDone e c ∈ (waitLoop reportID done now ticks).2 →
      c = done.2 ∧ ∃ b, e = max b done.1 ∧
        (b = now ∨ ∃ p ∈ ticks, ∃ t,
          Event.wake t ∈ (waitLoop reportID done now ticks).2 ∧ b = t + p.dur) := by
  induction ticks with
  | nil =>
    intro now e c he
    simp [waitLoop] at he
    exact ⟨he.2, now, he.1, Or.inl rfl⟩
  | cons p rest ih =>
    intro now e c he
    have hs := sendReportMessage_no_ctxDone p.faults p.db reportID e c
    by_cases hcond : (max now p.arrival < max now done.1 ||
        (max now p.arrival == max now done.1 && p.wins)) = true
    · cases hres : (sendReportMessage p.faults p.db reportID).1 with
      | error err =>
        simp only [waitLoop, hcond, hres, if_true] at he
        simp [hs] at he
      | ok u =>
        simp only [waitLoop, hcond, hres, if_true] at he ⊢
        simp only [List.mem_cons, List.mem_append, hs, false_or, reduceCtorEq] at he
        obtain ⟨hc, b, hb, hcase⟩ := ih _ e c he
        refine ⟨hc, b, hb, Or.inr ?_⟩
        rcases hcase with hnow | ⟨q, hq, t, ht, hbq⟩
        · exact ⟨p, by simp, max now p.arrival, by simp, hnow⟩
        · exact ⟨q, by simp [hq], t, by simp [ht], hbq⟩
    · simp only [waitLoop, hcond, if_false, Bool.false_eq_true] at he
      simp at he
      exact ⟨he.2, now, he.1, Or.inl rfl⟩

/-- The timeout context closes with cause `deadline` only at its deadline. -/
theorem doneAt_deadline (deadline : Nat) (cancelAt : Option Nat)
    (h : (doneAt deadline cancelAt).2 = DoneCause.deadline) :
    (doneAt deadline cancelAt).1 = deadline := by
  unfold doneAt at h ⊢
  cases cancelAt with
  | none => rfl
  | some c =>
    simp only [] at h ⊢
    by_cases hc : c < deadline
    · simp [hc] at h
    · simp [hc]

/-- C10, as the code has it: the deadline of GetReportStream is armed once, when the
wait loop is entered after the initial snapshot (at time `start + dur0`), and every
loop iteration waits on that same deadline, so consuming a wake-up does not postpone
it: a session that ends by deadline at time `e` ends no earlier than 10 seconds after
the wait loop was entered, and it ends exactly then, unless the re-send of a wake-up
it consumed finishes after that instant, in which case it ends when that re-send
finishes. -/
theorem GetReportStream_deadline_armed_once (sid : String) (env : StreamEnv)
    (report : Report) (e : Nat)
    (h : Event.ctxDone e DoneCause.deadline ∈
      (GetReportStream (some sid) env ⟨some report⟩).2) :
    env.start + env.dur0 + 10 * second ≤ e ∧
    (e = env.start + env.dur0 + 10 * second ∨
      ∃ p ∈ env.ticks, ∃ t,
        Event.wake t ∈ (GetReportStream (some sid) env ⟨some report⟩).2 ∧ e = t + p.dur) := by
  have hs := sendReportMessage_no_ctxDone env.f0 env.db0 report.Id e DoneCause.deadline
  cases hres : (sendReportMessage env.f0 env.db0 report.Id).1 with
  | error err =>
    simp only [GetReportStream, streamBody, hres] at h
    simp [hs] at h
  | ok u =>
    simp only [GetReportStream, streamBody, hres] at h ⊢
    simp [hs] at h
    obtain ⟨hc, b, hb, hcase⟩ := waitLoop_exit _ _ _ _ _ _ h
    rw [doneAt_deadline _ _ hc.symm] at hb
    rcases hcase with hnow | ⟨p, hp, t, ht, hbp⟩
    · subst hnow
      exact ⟨by omega, Or.inl (by omega)⟩
    · refine ⟨by omega, ?_⟩
      by_cases hle : b ≤ env.start + env.dur0 + 10 * second
      · exact Or.inl (by omega)
      · exact Or.inr ⟨p, hp, t, by simp [ht], by omega⟩

/-- Witness of C10 as amended: the session that enters its wait loop at time 0 and
consumes a wake-up at 9 s ends by deadline at 10 s, the deadline armed at loop entry. -/
theorem GetReportStream_deadline_armed_once_witness :
    Event.ctxDone 10000 DoneCause.deadline ∈
        (GetReportStream (some "s1") lateTickEnv ⟨some { Id := idX }⟩).2 ∧
      Event.wake 9000 ∈ (GetReportStream (some "s1") lateTickEnv ⟨some { Id := idX }⟩).2 ∧
      lateTickEnv.start + lateTickEnv.dur0 + 10 * second ≤ 10000 ∧
      (10000 = lateTickEnv.start + lateTickEnv.dur0 + 10 * second ∨
        ∃ p ∈ lateTickEnv.ticks, ∃ t,
          Event.wake t ∈ (GetReportStream (some "s1") lateTickEnv ⟨some { Id := idX }⟩).2 ∧
            10000 = t + p.dur) :=
  ⟨by decide, by decide,
    GetReportStream_deadline_armed_once "s1" lateTickEnv { Id := idX } 10000 (by decide)⟩

/-- C10 as stated fails: a session that enters its wait loop at time 0 and consumes a
wake-up at 9 s ends by deadline at 10 s, one second after that wake-up. -/
theorem GetReportStream_deadline_not_rearmed :
    ¬ DeadlineRearmed (GetReportStream (some "s1") lateTickEnv ⟨some { Id := idX }⟩).2 := by
  intro h
  have h1 := h 9000 10000 (by decide) (by decide)
  simp [second] at h1

end Dekart
